import Mathlib

/-!
Verification of the TechNews auto-publisher pipeline (news_bot).

Shallow embedding of the Python sources:
  news_bot/generator.py  (slugify, sources block of generate_article)
  news_bot/fetcher.py    (fetch_from_rss, deduplicate, filter_relevant, fetch_news)
  news_bot/publisher.py  (get_jwt_token, publish_article)
  news_bot/sitemap.py    (generate_sitemap)
  news_bot/indexer.py    (submit_indexnow, ping_google_sitemap, ping_bing_sitemap,
                          submit_to_google)
  news_bot/main.py       (run, load_published_slugs, save_published_slug)

Text is modelled as `String` / `List Char`; Python's `re` character classes
are modelled at ASCII granularity (`\w` = ASCII alphanumeric or underscore,
`\s` = the six ASCII whitespace characters), matching the behaviour of the
source on ASCII data.  Network calls are oracle inputs: every HTTP response
the code can branch on is a constructor of an explicit response type.
-/

namespace NewsBot

/-! ### Character-level utilities shared by the string pipelines -/

/-- ASCII whitespace, the characters matched by Python's `\s` (and stripped
by `str.strip`) on ASCII text. -/
def isAsciiWs (c : Char) : Bool :=
  c = ' ' || c = '\t' || c = '\n' || c = '\x0b' || c = '\x0c' || c = '\r'

/-- Python `\w` on ASCII text: alphanumeric or underscore. -/
def isWordChar (c : Char) : Bool :=
  c.isAlphanum || c = '_'

/-- The uppercase/lowercase ASCII pairs, used to model Python `str.lower`. -/
def lowerPairs : List (Char × Char) :=
  [('A', 'a'), ('B', 'b'), ('C', 'c'), ('D', 'd'), ('E', 'e'), ('F', 'f'),
   ('G', 'g'), ('H', 'h'), ('I', 'i'), ('J', 'j'), ('K', 'k'), ('L', 'l'),
   ('M', 'm'), ('N', 'n'), ('O', 'o'), ('P', 'p'), ('Q', 'q'), ('R', 'r'),
   ('S', 's'), ('T', 't'), ('U', 'u'), ('V', 'v'), ('W', 'w'), ('X', 'x'),
   ('Y', 'y'), ('Z', 'z')]

/-- Python `str.lower` on one ASCII character. -/
def pyLower (c : Char) : Char :=
  match lowerPairs.find? (fun p => p.1 = c) with
  | some p => p.2
  | none => c

/-- Python `str.strip`: drop leading and trailing whitespace. -/
def pyStrip (l : List Char) : List Char :=
  (((l.dropWhile isAsciiWs).reverse).dropWhile isAsciiWs).reverse

/-- `str.strip` lifted to `String`. -/
def pyStripStr (s : String) : String :=
  ⟨pyStrip s.data⟩

/-! ### generator.slugify

Python source:
    text = text.lower().strip()
    text = re.sub(r"[^\w\s-]", "", text)
    text = re.sub(r"[\s_-]+", "-", text)
    text = re.sub(r"^-+|-+$", "", text)
    return text[:80]
-/

/-- A character collapsed to a hyphen by `re.sub(r"[\s_-]+", "-", ...)`. -/
def isDashish (c : Char) : Bool :=
  isAsciiWs c || c = '_' || c = '-'

/-- `re.sub(r"[\s_-]+", "-", text)`: every maximal run of whitespace,
underscores and hyphens becomes a single hyphen.  The flag records whether
we are inside such a run (its first character already emitted the hyphen). -/
def collapseDash : Bool → List Char → List Char
  | _, [] => []
  | inRun, c :: rest =>
    if isDashish c then
      if inRun then collapseDash true rest else '-' :: collapseDash true rest
    else
      c :: collapseDash false rest

/-- `re.sub(r"^-+|-+$", "", text)`: trim leading and trailing hyphens. -/
def trimDash (l : List Char) : List Char :=
  (((l.dropWhile (fun c => c = '-')).reverse).dropWhile (fun c => c = '-')).reverse

/-- The character filter of `re.sub(r"[^\w\s-]", "", text)`. -/
def slugKeep (c : Char) : Bool :=
  isWordChar c || isAsciiWs c || c = '-'

/-- `generator.slugify` on the underlying character list. -/
def slugifyChars (l : List Char) : List Char :=
  (trimDash (collapseDash false ((pyStrip (l.map pyLower)).filter slugKeep))).take 80

/-- `generator.slugify`. -/
def slugify (s : String) : String :=
  ⟨slugifyChars s.data⟩

/-! ### fetcher.py — article records, RSS branch, deduplication, relevance,
`fetch_news` -/

/-- The common Article Record shape produced by the aggregator
(`fetcher.fetch_from_newsapi` / `fetch_from_rss`). -/
structure Article where
  title : String
  summary : String
  url : String
  source : String
  published : String
  content : String
  origin : String
deriving DecidableEq

/-- One parsed feed entry, as seen by `fetch_from_rss`: `published` is the
parsed `published_parsed` timestamp (UTC epoch seconds) when present. -/
structure RssEntry where
  published : Option Int
  title : String
  summary : String
  link : String
deriving DecidableEq

/-- One RSS feed: its title and its entry list. -/
structure Feed where
  title : String
  entries : List RssEntry
deriving DecidableEq

/-- The record `fetch_from_rss` appends for one accepted entry; `published`
keeps the parsed timestamp (`none` models the empty string the code stores
for undated entries). -/
structure RssArticle where
  title : String
  summary : String
  url : String
  source : String
  published : Option Int
  content : String
  origin : String
deriving DecidableEq

/-- `re.sub(r"<[^>]+>", "", s)`: delete every `<`…`>` group with a nonempty
body.  The first argument holds the characters after an unclosed `<` seen so
far (in reverse), `none` when outside any candidate tag. -/
def stripHtmlGo : Option (List Char) → List Char → List Char
  | none, [] => []
  | none, c :: rest =>
      if c = '<' then stripHtmlGo (some []) rest else c :: stripHtmlGo none rest
  | some buf, [] => '<' :: buf.reverse
  | some buf, c :: rest =>
      if c = '>' then
        if buf.isEmpty then '<' :: '>' :: stripHtmlGo none rest
        else stripHtmlGo none rest
      else stripHtmlGo (some (c :: buf)) rest

/-- HTML-tag stripping of feed summaries. -/
def stripHtml (s : String) : String :=
  ⟨stripHtmlGo none s.data⟩

/-- The body of the `fetch_from_rss` loop after the recency test: strip the
title, strip markup and whitespace from the summary, keep the entry only when
both are nonempty, truncating the stored summary to 500 characters. -/
def rssKeep (feedTitle : String) (e : RssEntry) : Option RssArticle :=
  let title := pyStripStr e.title
  let summary := pyStripStr (stripHtml e.summary)
  if title ≠ "" ∧ summary ≠ "" then
    some { title := title, summary := ⟨summary.data.take 500⟩, url := e.link,
           source := feedTitle, published := e.published, content := summary,
           origin := "rss" }
  else none

/-- One iteration of the `fetch_from_rss` entry loop:
`if pub and pub < cutoff: continue`, else normalize and keep. -/
def processRssEntry (cutoff : Int) (feedTitle : String) (e : RssEntry) :
    Option RssArticle :=
  match e.published with
  | some p => if p < cutoff then none else rssKeep feedTitle e
  | none => rssKeep feedTitle e

/-- `fetcher.fetch_from_rss`: for each feed take at most `maxPerFeed`
entries and run the entry loop with cutoff 24 hours before `now`. -/
def fetch_from_rss (now : Int) (maxPerFeed : Nat) (feeds : List Feed) :
    List RssArticle :=
  feeds.flatMap (fun f =>
    (f.entries.take maxPerFeed).filterMap (processRssEntry (now - 86400) f.title))

/-- The stop-word list of `fetcher.deduplicate`. -/
def stopwords : List (List Char) :=
  (["the", "a", "an", "is", "in", "of", "for", "to", "and", "or", "on", "at",
    "with"]).map String.data

/-- Emit a completed word-character run: dropped when it is a stop word. -/
def flushTok (tok : List Char) : List Char :=
  if tok ∈ stopwords then [] else tok

/-- `re.sub(r"\b(the|a|an|...)\b", "", s)`: delete every maximal
word-character run equal to a stop word.  The first argument accumulates the
current run in reverse. -/
def removeStopsGo : List Char → List Char → List Char
  | tok, [] => flushTok tok.reverse
  | tok, c :: rest =>
      if isWordChar c then removeStopsGo (c :: tok) rest
      else flushTok tok.reverse ++ c :: removeStopsGo [] rest

/-- Stop-word removal with word boundaries. -/
def removeStops (l : List Char) : List Char :=
  removeStopsGo [] l

/-- `re.sub(r"\s+", " ", s)`: collapse whitespace runs to one space. -/
def collapseWs : Bool → List Char → List Char
  | _, [] => []
  | inRun, c :: rest =>
    if isAsciiWs c then
      if inRun then collapseWs true rest else ' ' :: collapseWs true rest
    else
      c :: collapseWs false rest

/-- The normalized dedup key of `fetcher.deduplicate`:
`art["title"].lower().strip()[:60]`, stop words removed, whitespace
collapsed, stripped. -/
def normKeyChars (title : List Char) : List Char :=
  pyStrip (collapseWs false (removeStops ((pyStrip (title.map pyLower)).take 60)))

/-- The normalized key of one Article Record. -/
def normKey (a : Article) : String :=
  ⟨normKeyChars a.title.data⟩

/-- The loop of `fetcher.deduplicate`, with `seen` the set of keys already
seen (Python set membership modelled by list membership). -/
def dedupGo (seen : List String) : List Article → List Article
  | [] => []
  | a :: rest =>
      if normKey a ∈ seen then dedupGo seen rest
      else a :: dedupGo (normKey a :: seen) rest

/-- `fetcher.deduplicate`. -/
def deduplicate (l : List Article) : List Article :=
  dedupGo [] l

/-- Specification-side restatement of deduplication, following the spec's
words: keep each record, then delete every later record with the same
normalized key ("keep only the first record per key, first-seen-wins"). -/
def firstSeen : List Article → List Article
  | [] => []
  | a :: rest =>
      a :: firstSeen (rest.filter (fun b => normKey b ≠ normKey a))
termination_by l => l.length
decreasing_by
  exact Nat.lt_succ_of_le (List.length_filter_le _ _)

/-- The fixed relevance keyword list of `fetcher.filter_relevant`. -/
def relevantKeywords : List String :=
  ["ai", "artificial intelligence", "machine learning", "deep learning",
   "robot", "automation", "tech", "technology", "science", "software",
   "hardware", "cloud", "data", "algorithm", "neural", "gpt", "llm",
   "chip", "semiconductor", "quantum", "cybersecurity", "space", "biotech",
   "startup", "innovation", "research", "computing", "model", "openai",
   "google", "microsoft", "meta", "nvidia", "apple", "tesla"]

/-- Python's substring test `needle in hay`. -/
def containsSub : List Char → List Char → Bool
  | [], needle => needle.isEmpty
  | c :: t, needle => needle.isPrefixOf (c :: t) || containsSub t needle

/-- `fetcher.filter_relevant`: keep a record iff its lowercased
title-plus-summary contains one of the fixed keywords. -/
def filter_relevant (l : List Article) : List Article :=
  l.filter (fun a =>
    relevantKeywords.any (fun kw =>
      containsSub ((a.title ++ " " ++ a.summary).data.map pyLower) kw.data))

/-- `fetcher.fetch_news`, parametrized by the articles the two network
branches returned: concatenate, deduplicate, filter, sort by the published
string descending (Python `sort(key=..., reverse=True)` is a stable sort),
cap at 20. -/
def fetch_news (newsapiArticles rssArticles : List Article) : List Article :=
  ((filter_relevant (deduplicate (newsapiArticles ++ rssArticles))).mergeSort
    (fun a b => b.published ≤ a.published)).take 20

/-! ### generator.py — the Sources section of `generate_article` -/

/-- One `{name, url}` source reference. -/
structure SourceRef where
  name : String
  url : String
deriving DecidableEq

/-- The fetched-URL append loop of `generate_article`: walk the (already
truncated) article list, adding each article whose URL is nonempty and not
yet seen; `seen` starts as the set of model-returned URLs. -/
def addFetched (seen : List String) : List Article → List SourceRef
  | [] => []
  | art :: rest =>
      if art.url ≠ "" ∧ art.url ∉ seen then
        ⟨art.source, art.url⟩ :: addFetched (art.url :: seen) rest
      else addFetched seen rest

/-- The source list rendered into the Sources section: model-returned
sources, then appended fetched URLs from the first 8 articles, keeping only
entries with a nonempty URL (the `if s.get("url")` guard). -/
def sourcesListed (ms : List SourceRef) (arts : List Article) : List SourceRef :=
  (ms ++ addFetched (ms.map SourceRef.url) (arts.take 8)).filter
    (fun s => s.url ≠ "")

/-- The Sources section itself: appended only when the model returned a
nonempty source list (`if cfg_article["include_sources"] and sources:` with
`include_sources = True` in config.py). -/
def sourcesBlock (ms : List SourceRef) (arts : List Article) :
    Option (List SourceRef) :=
  if ms.isEmpty then none else some (sourcesListed ms arts)

/-! ### publisher.py — `get_jwt_token` and `publish_article` -/

/-- Outcome of the login POST: an HTTP status with the optional `token`
field of the JSON body, a connection error, or a timeout. -/
inductive LoginResp
  | status (code : Nat) (token : Option String)
  | connError
  | timeout
deriving DecidableEq

/-- `publisher.get_jwt_token` (uncached first call of a run): a token on
HTTP 200 with a token in the body, `None` otherwise. -/
def getJwtToken : LoginResp → Option String
  | .status 200 tok => tok
  | .status _ _ => none
  | .connError => none
  | .timeout => none

/-- The `_meta` metadata block of a Generated Post. -/
structure PostMeta where
  date : String
  readingTime : Nat
  metaKeywords : String
  canonicalUrl : String
deriving DecidableEq

/-- A Generated Post, the dict `generate_article` returns; `meta` is the
`_meta` key (`none` once popped). -/
structure Post where
  title : String
  slug : String
  content : String
  excerpt : String
  featuredImage : String
  status : String
  author : String
  tags : List String
  meta : Option PostMeta
deriving DecidableEq

/-- Outcome of the creation POST to `/api/posts`. -/
inductive PostResp
  | status (code : Nat)
  | connError
  | timeout
deriving DecidableEq

/-- Result of `publish_article`: returned canonical URL, the state of the
caller's post dict afterwards, and whether the creation request was sent. -/
structure PubOut where
  url : Option String
  post : Post
  createRequested : Bool
deriving DecidableEq

/-- `CONFIG["site"]["base_url"]`. -/
def siteBaseUrl : String := "https://saurabhjha.co.in"

/-- `meta.get("canonical_url", f"{base}/blog/{slug}")`. -/
def canonicalFor (meta : Option PostMeta) (slug : String) : String :=
  match meta with
  | some m => m.canonicalUrl
  | none => siteBaseUrl ++ "/blog/" ++ slug

/-- `publisher.publish_article`, over the login outcome and the creation
response: without a token it returns early leaving the post untouched;
otherwise it pops `_meta`, posts, and restores `_meta` only on HTTP 201. -/
def publish_article (login : Option String) (resp : PostResp) (article : Post) :
    PubOut :=
  match login with
  | none => ⟨none, article, false⟩
  | some _ =>
      let meta := article.meta
      let stripped : Post := { article with meta := none }
      let canonical := canonicalFor meta article.slug
      if resp = PostResp.status 201 then
        ⟨some canonical, { stripped with meta := meta }, true⟩
      else ⟨none, stripped, true⟩

/-! ### main.py — the orchestrator `run` -/

/-- `main.save_published_slug`: re-load the ledger, add the slug, write. -/
def save_published_slug (slug : String) (ledger : List String) : List String :=
  if slug ∈ ledger then ledger else slug :: ledger

/-- Observable outcome of one orchestrator run. -/
structure RunOut where
  publisherCalled : Bool
  createRequested : Bool
  ledgerWritten : Bool
  ledger : List String
  url : Option String
deriving DecidableEq

/-- `main.run`, over the ledger loaded at start and oracles for the three
network stages: abort on empty fetch, failed generation, ledger hit, or
failed publish; write the ledger only after a successful publish. -/
def run (ledger : List String) (articles : List Article) (gen : Option Post)
    (login : LoginResp) (resp : PostResp) : RunOut :=
  if articles.isEmpty then ⟨false, false, false, ledger, none⟩
  else match gen with
  | none => ⟨false, false, false, ledger, none⟩
  | some post =>
      if post.slug ∈ ledger then ⟨false, false, false, ledger, none⟩
      else
        let out := publish_article (getJwtToken login) resp post
        match out.url with
        | none => ⟨true, out.createRequested, false, ledger, none⟩
        | some u =>
            ⟨true, out.createRequested, true,
              save_published_slug post.slug ledger, some u⟩

/-! ### sitemap.py — `generate_sitemap` -/

/-- One record of the backend listing used by the sitemap builder. -/
structure SlugEntry where
  slug : String
  updated : String
deriving DecidableEq

/-- One `<url>` element of the generated sitemap. -/
inductive SitemapEntry
  | home (lastmod : String)
  | post (slug : String) (lastmod : String)
deriving DecidableEq

/-- `if new_slug and not any(s["slug"] == new_slug for s in slugs):
slugs.insert(0, ...)` — the empty string is falsy in Python, hence the
nonemptiness test. -/
def injectSlug (listing : List SlugEntry) (newSlug : String) (today : String) :
    List SlugEntry :=
  if newSlug ≠ "" ∧ ¬ listing.any (fun s => s.slug = newSlug) then
    ⟨newSlug, today⟩ :: listing
  else listing

/-- `sitemap.generate_sitemap`: a home entry followed by one post entry per
(possibly injected) listing record. -/
def generate_sitemap (listing : List SlugEntry) (newSlug : String)
    (today : String) : List SitemapEntry :=
  .home today :: (injectSlug listing newSlug today).map
    (fun i => .post i.slug i.updated)

/-- The post slugs of a sitemap, in order. -/
def sitemapPostSlugs (l : List SitemapEntry) : List String :=
  l.filterMap (fun e => match e with | .home _ => none | .post s _ => some s)

/-- Home-page entry test. -/
def isHomeEntry : SitemapEntry → Bool
  | .home _ => true
  | .post _ _ => false

/-! ### indexer.py — the three notification sub-methods -/

/-- Outcome of one notification HTTP call. -/
inductive HttpResp
  | status (code : Nat)
  | connError
  | timeout
deriving DecidableEq

/-- `indexer.submit_indexnow`: success exactly on HTTP 200/202 (403 means
the key file is not hosted and returns failure). -/
def submit_indexnow : HttpResp → Bool
  | .status 200 => true
  | .status 202 => true
  | .status _ => false
  | .connError => false
  | .timeout => false

/-- `indexer.ping_google_sitemap`: success exactly on HTTP 200. -/
def ping_google_sitemap : HttpResp → Bool
  | .status 200 => true
  | _ => false

/-- `indexer.ping_bing_sitemap`: success exactly on HTTP 200. -/
def ping_bing_sitemap : HttpResp → Bool
  | .status 200 => true
  | _ => false

/-- The three sub-methods of the Index Notifier. -/
inductive SubMethod
  | indexnow
  | googlePing
  | bingPing
deriving DecidableEq

/-- `indexer.submit_to_google`: runs all three sub-methods unconditionally
(the Python dict literal evaluates all three calls) and reports success when
at least one succeeded.  The first component records the attempted
sub-methods in order. -/
def submit_to_google (rIndexnow rGoogle rBing : HttpResp) :
    List SubMethod × Bool :=
  let r1 := submit_indexnow rIndexnow
  let r2 := ping_google_sitemap rGoogle
  let r3 := ping_bing_sitemap rBing
  ([.indexnow, .googlePing, .bingPing],
    decide (0 < ((if r1 then 1 else 0) + (if r2 then 1 else 0) +
      (if r3 then 1 else 0) : Nat)))

/-! ### Concrete inputs used in counterexamples and witnesses -/

/-- A title whose slug is truncated right after a hyphen: 79 letters, a
space, one more letter. -/
def slugLongInput : String :=
  ⟨List.replicate 79 'a' ++ [' ', 'b']⟩

/-- A minimal Article Record with the given title and url. -/
def mkArt (t u : String) : Article :=
  ⟨t, "s", u, "src", "", "c", "rss"⟩

/-- Nine fetched articles with distinct nonempty URLs. -/
def artsC5 : List Article :=
  [mkArt "t1" "u1", mkArt "t2" "u2", mkArt "t3" "u3", mkArt "t4" "u4",
   mkArt "t5" "u5", mkArt "t6" "u6", mkArt "t7" "u7", mkArt "t8" "u8",
   mkArt "t9" "u9"]

/-- An undated feed entry (no `published_parsed`). -/
def rssEntryUndated : RssEntry :=
  ⟨none, "Ai", "Ai news", "u"⟩

/-- A feed containing only the undated entry. -/
def rssFeedC3 : Feed :=
  ⟨"F", [rssEntryUndated]⟩

/-- A concrete Generated Post with slug `"x"` and no metadata block. -/
def postX : Post :=
  ⟨"T", "x", "c", "e", "", "published", "TechNews Bot", [], none⟩

/-! ### Invariants of slugify output -/

/-- Characters that can occur in a slug: lowercase-stable alphanumerics and
the hyphen. -/
def slugChar (c : Char) : Bool :=
  (c.isAlphanum && (pyLower c = c)) || c = '-'

/-- Two adjacent characters are not both hyphens. -/
def dashFree (a b : Char) : Prop :=
  ¬(a = '-' ∧ b = '-')

/-- No two adjacent hyphens anywhere in the list. -/
def NoDD (l : List Char) : Prop :=
  l.Chain' dashFree

theorem lowerPairs_value_not_key :
    ∀ q ∈ lowerPairs, lowerPairs.find? (fun r => r.1 = q.2) = none := by decide

theorem pyLower_pyLower (c : Char) : pyLower (pyLower c) = pyLower c := by
  unfold pyLower
  cases h : lowerPairs.find? (fun p => p.1 = c) with
  | none => simp [h]
  | some p =>
      have hp : p ∈ lowerPairs := List.mem_of_find?_eq_some h
      simp [lowerPairs_value_not_key p hp]

theorem ws_not_alphanum {c : Char} (h : isAsciiWs c = true) : c.isAlphanum = false := by
  simp only [isAsciiWs, Bool.or_eq_true, decide_eq_true_eq] at h
  rcases h with ((((h | h) | h) | h) | h) | h <;> subst h <;> decide

theorem slugChar_pyLower {c : Char} (h : slugChar c = true) : pyLower c = c := by
  simp only [slugChar, Bool.or_eq_true, Bool.and_eq_true, decide_eq_true_eq] at h
  rcases h with ⟨-, h⟩ | h
  · exact h
  · subst h; decide

theorem slugChar_not_ws {c : Char} (h : slugChar c = true) : isAsciiWs c = false := by
  simp only [slugChar, Bool.or_eq_true, Bool.and_eq_true, decide_eq_true_eq] at h
  cases hws : isAsciiWs c
  · rfl
  · rcases h with ⟨ha, -⟩ | h
    · rw [ws_not_alphanum hws] at ha; cases ha
    · subst h; cases hws

theorem slugChar_keep {c : Char} (h : slugChar c = true) : slugKeep c = true := by
  simp only [slugChar, Bool.or_eq_true, Bool.and_eq_true, decide_eq_true_eq] at h
  rcases h with ⟨ha, -⟩ | h
  · simp [slugKeep, isWordChar, ha]
  · subst h; decide

theorem slugChar_not_dashish {c : Char} (h : slugChar c = true) (hne : c ≠ '-') :
    isDashish c = false := by
  have hws : isAsciiWs c = false := slugChar_not_ws h
  simp only [slugChar, Bool.or_eq_true, Bool.and_eq_true, decide_eq_true_eq] at h
  rcases h with ⟨ha, -⟩ | h
  · have hu : c ≠ '_' := by rintro rfl; exact absurd ha (by decide)
    simp [isDashish, hws, hu, hne]
  · exact absurd h hne

theorem not_dashish_ne_dash {c : Char} (h : isDashish c = false) : c ≠ '-' := by
  rintro rfl; cases h

/-! ### Small list lemmas -/

theorem dropWhile_eq_self_of_head {p : α → Bool} {l : List α}
    (h : ∀ a, l.head? = some a → p a = false) : l.dropWhile p = l := by
  cases l with
  | nil => rfl
  | cons a t => simp [List.dropWhile_cons, h a rfl]

theorem head?_dropWhile_false {p : α → Bool} {l : List α} {a : α}
    (h : (l.dropWhile p).head? = some a) : p a = false := by
  induction l with
  | nil => cases h
  | cons b t ih =>
      by_cases hb : p b
      · rw [List.dropWhile_cons_of_pos hb] at h; exact ih h
      · rw [List.dropWhile_cons_of_neg hb] at h
        cases h
        simpa using hb

theorem getLast?_dropWhile {p : α → Bool} {l : List α}
    (h : l.dropWhile p ≠ []) : (l.dropWhile p).getLast? = l.getLast? := by
  induction l with
  | nil => rfl
  | cons b t ih =>
      by_cases hb : p b
      · rw [List.dropWhile_cons_of_pos hb] at h ⊢
        have ht : t ≠ [] := by
          rintro rfl; exact h rfl
        cases t with
        | nil => exact absurd rfl ht
        | cons c u => rw [ih h, List.getLast?_cons_cons]
      · rw [List.dropWhile_cons_of_neg hb]

theorem map_eq_self_of {f : α → α} {l : List α} (h : ∀ a ∈ l, f a = a) :
    l.map f = l := by
  rw [List.map_congr_left h, List.map_id']

theorem pyStrip_eq_self_of {l : List Char} (h : ∀ c ∈ l, isAsciiWs c = false) :
    pyStrip l = l := by
  unfold pyStrip
  have h1 : l.dropWhile isAsciiWs = l :=
    dropWhile_eq_self_of_head (fun a ha => h a (List.mem_of_mem_head? ha))
  rw [h1]
  have h2 : l.reverse.dropWhile isAsciiWs = l.reverse :=
    dropWhile_eq_self_of_head (fun a ha => by
      apply h
      have ha2 : a ∈ l.reverse := List.mem_of_mem_head? ha
      simpa using ha2)
  rw [h2, List.reverse_reverse]

theorem chain'_dropWhile {R : α → α → Prop} {p : α → Bool} {l : List α}
    (h : l.Chain' R) : (l.dropWhile p).Chain' R := by
  induction l with
  | nil => exact h
  | cons b t ih =>
      by_cases hb : p b
      · rw [List.dropWhile_cons_of_pos hb]
        exact ih h.tail
      · rwa [List.dropWhile_cons_of_neg hb]

theorem chain'_take {R : α → α → Prop} {l : List α}
    (h : l.Chain' R) : ∀ n, (l.take n).Chain' R := by
  induction l with
  | nil => intro n; simp
  | cons b t ih =>
      intro n
      cases n with
      | zero => simp
      | succ m =>
          rw [List.take_succ_cons, List.chain'_cons']
          rw [List.chain'_cons'] at h
          refine ⟨fun y hy => h.1 y ?_, ih h.2 m⟩
          cases t with
          | nil => simp at hy
          | cons c u =>
              cases m with
              | zero => simp at hy
              | succ k => simp_all

theorem noDD_reverse {l : List Char} (h : NoDD l) : NoDD l.reverse := by
  rw [NoDD, List.chain'_reverse]
  exact h.imp (fun a b hab => fun ⟨h1, h2⟩ => hab ⟨h2, h1⟩)

/-! ### collapseDash invariants -/

theorem collapseDash_mem {c : Char} :
    ∀ (b : Bool) (l : List Char), c ∈ collapseDash b l →
      c = '-' ∨ (c ∈ l ∧ isDashish c = false)
  | _, [], h => by cases h
  | b, a :: t, h => by
      by_cases ha : isDashish a
      · cases b with
        | true =>
            rw [collapseDash, if_pos ha, if_pos rfl] at h
            rcases collapseDash_mem true t h with h1 | ⟨h1, h2⟩
            · exact Or.inl h1
            · exact Or.inr ⟨List.mem_cons_of_mem a h1, h2⟩
        | false =>
            rw [collapseDash, if_pos ha] at h
            simp only [Bool.false_eq_true, if_false, List.mem_cons] at h
            rcases h with h | h
            · exact Or.inl h
            · rcases collapseDash_mem true t h with h1 | ⟨h1, h2⟩
              · exact Or.inl h1
              · exact Or.inr ⟨List.mem_cons_of_mem a h1, h2⟩
      · rw [collapseDash, if_neg ha] at h
        rcases List.mem_cons.mp h with h | h
        · subst h; exact Or.inr ⟨List.mem_cons_self _ _, by simpa using ha⟩
        · rcases collapseDash_mem false t h with h1 | ⟨h1, h2⟩
          · exact Or.inl h1
          · exact Or.inr ⟨List.mem_cons_of_mem a h1, h2⟩

theorem collapseDash_true_head :
    ∀ (l : List Char) (a : Char), (collapseDash true l).head? = some a →
      isDashish a = false
  | [], a, h => by cases h
  | c :: t, a, h => by
      by_cases hc : isDashish c
      · rw [collapseDash, if_pos hc, if_pos rfl] at h
        exact collapseDash_true_head t a h
      · rw [collapseDash, if_neg hc] at h
        cases h
        simpa using hc

theorem collapseDash_noDD : ∀ (b : Bool) (l : List Char), NoDD (collapseDash b l)
  | _, [] => List.chain'_nil
  | b, c :: t => by
      by_cases hc : isDashish c
      · cases b with
        | true =>
            rw [collapseDash, if_pos hc, if_pos rfl]
            exact collapseDash_noDD true t
        | false =>
            rw [collapseDash, if_pos hc]
            simp only [Bool.false_eq_true, if_false]
            rw [NoDD, List.chain'_cons']
            refine ⟨fun y hy => ?_, collapseDash_noDD true t⟩
            rintro ⟨-, hy2⟩
            have := collapseDash_true_head t y hy
            exact not_dashish_ne_dash this hy2
      · rw [collapseDash, if_neg hc]
        rw [NoDD, List.chain'_cons']
        refine ⟨fun y hy => ?_, collapseDash_noDD false t⟩
        rintro ⟨hc2, -⟩
        exact not_dashish_ne_dash (by simpa using hc) hc2

theorem collapseDash_eq_self :
    ∀ l : List Char, (∀ c ∈ l, slugChar c = true) → NoDD l →
      collapseDash false l = l ∧ (l.head? ≠ some '-' → collapseDash true l = l)
  | [], _, _ => ⟨rfl, fun _ => rfl⟩
  | c :: t, hAll, hDD => by
      have hc : slugChar c = true := hAll c (List.mem_cons_self c t)
      have ht : ∀ x ∈ t, slugChar x = true :=
        fun x hx => hAll x (List.mem_cons_of_mem c hx)
      rw [NoDD, List.chain'_cons'] at hDD
      obtain ⟨hhd, htDD⟩ := hDD
      by_cases hdash : c = '-'
      · subst hdash
        have hdd : isDashish '-' = true := by decide
        have hthead : t.head? ≠ some '-' := by
          intro hh
          exact hhd '-' hh ⟨rfl, rfl⟩
        have := (collapseDash_eq_self t ht htDD).2 hthead
        constructor
        · rw [collapseDash, if_pos hdd]
          simp only [Bool.false_eq_true, if_false, this]
        · intro hcontra; exact absurd rfl hcontra
      · have hnd : isDashish c = false := slugChar_not_dashish hc hdash
        have := (collapseDash_eq_self t ht htDD).1
        constructor
        · rw [collapseDash, if_neg (by simp [hnd]), this]
        · intro _; rw [collapseDash, if_neg (by simp [hnd]), this]

/-! ### trimDash invariants -/

theorem trimDash_head {l : List Char} {a : Char}
    (h : (trimDash l).head? = some a) : a ≠ '-' := by
  unfold trimDash at h
  rw [List.head?_reverse] at h
  by_cases hne : (l.dropWhile (fun c => c = '-')).reverse.dropWhile (fun c => c = '-') = []
  · rw [hne] at h; cases h
  · rw [getLast?_dropWhile hne, List.getLast?_reverse] at h
    have := head?_dropWhile_false h
    simpa using this

theorem trimDash_noDD {l : List Char} (h : NoDD l) : NoDD (trimDash l) :=
  noDD_reverse (chain'_dropWhile (noDD_reverse (chain'_dropWhile h)))

theorem trimDash_subset {l : List Char} : ∀ c ∈ trimDash l, c ∈ l := by
  intro c hc
  unfold trimDash at hc
  rw [List.mem_reverse] at hc
  have h1 := (List.dropWhile_sublist (fun c => c = '-')).subset hc
  rw [List.mem_reverse] at h1
  exact (List.dropWhile_sublist (fun c => c = '-')).subset h1

theorem trimDash_eq_self {l : List Char}
    (hHead : l.head? ≠ some '-') (hLast : l.getLast? ≠ some '-') :
    trimDash l = l := by
  unfold trimDash
  have h1 : l.dropWhile (fun c => c = '-') = l :=
    dropWhile_eq_self_of_head (fun a ha => by
      simp only [decide_eq_false_iff_not]
      intro hc; subst hc; exact hHead ha)
  rw [h1]
  have h2 : l.reverse.dropWhile (fun c => c = '-') = l.reverse :=
    dropWhile_eq_self_of_head (fun a ha => by
      simp only [decide_eq_false_iff_not]
      intro hc; subst hc
      rw [List.head?_reverse] at ha
      exact hLast ha)
  rw [h2, List.reverse_reverse]

theorem head?_take_pos {l : List α} {n : Nat} (h : 0 < n) :
    (l.take n).head? = l.head? := by
  cases l with
  | nil => simp
  | cons a t =>
      cases n with
      | zero => cases h
      | succ m => simp

/-! ### slugify output characterization -/

theorem slugifyChars_all_slugChar (l : List Char) :
    ∀ c ∈ slugifyChars l, slugChar c = true := by
  intro c hc
  unfold slugifyChars at hc
  have hc1 := (List.take_sublist 80 _).subset hc
  have hc2 := trimDash_subset c hc1
  rcases collapseDash_mem false _ hc2 with h | ⟨hmem, hnd⟩
  · subst h; decide
  · rw [List.mem_filter] at hmem
    obtain ⟨hmem, hkeep⟩ := hmem
    have hmem2 : c ∈ l.map pyLower := by
      unfold pyStrip at hmem
      rw [List.mem_reverse] at hmem
      have h1 := (List.dropWhile_sublist isAsciiWs).subset hmem
      rw [List.mem_reverse] at h1
      exact (List.dropWhile_sublist isAsciiWs).subset h1
    obtain ⟨d, -, hd⟩ := List.mem_map.mp hmem2
    have hfix : pyLower c = c := by rw [← hd, pyLower_pyLower]
    have halnum : c.isAlphanum = true := by
      simp only [slugKeep, isWordChar, Bool.or_eq_true, decide_eq_true_eq] at hkeep
      rcases hkeep with ((h | h) | h) | h
      · exact h
      · subst h; exact absurd hnd (by decide)
      · rw [show isDashish c = true by simp [isDashish, h]] at hnd; cases hnd
      · subst h; exact absurd hnd (by decide)
    simp [slugChar, halnum, hfix]

theorem slugifyChars_noDD (l : List Char) : NoDD (slugifyChars l) :=
  chain'_take (trimDash_noDD (collapseDash_noDD false _)) 80

theorem slugifyChars_head (l : List Char) : (slugifyChars l).head? ≠ some '-' := by
  unfold slugifyChars
  rw [head?_take_pos (by omega)]
  intro h
  exact trimDash_head h rfl

theorem slugifyChars_length (l : List Char) : (slugifyChars l).length ≤ 80 := by
  unfold slugifyChars
  rw [List.length_take]
  omega

/-- A list satisfying all slug-output invariants is a fixed point of
`slugifyChars`. -/
theorem slugifyChars_fixed {s : List Char}
    (hAll : ∀ c ∈ s, slugChar c = true) (hDD : NoDD s)
    (hHead : s.head? ≠ some '-') (hLast : s.getLast? ≠ some '-')
    (hLen : s.length ≤ 80) :
    slugifyChars s = s := by
  have h1 : s.map pyLower = s := map_eq_self_of (fun c hc => slugChar_pyLower (hAll c hc))
  have h2 : pyStrip s = s := pyStrip_eq_self_of (fun c hc => slugChar_not_ws (hAll c hc))
  have h3 : s.filter slugKeep = s :=
    List.filter_eq_self.mpr (fun c hc => slugChar_keep (hAll c hc))
  have h4 : collapseDash false s = s := (collapseDash_eq_self s hAll hDD).1
  have h5 : trimDash s = s := trimDash_eq_self hHead hLast
  have h6 : s.take 80 = s := List.take_of_length_le hLen
  unfold slugifyChars
  rw [h1, h2, h3, h4, h5, h6]

/-! ### Claim C1 -/

/-- Claim C1, counterexample.  `slugify slugLongInput` is a string slugify itself
outputs (hence "an already-valid slug" in the claim's sense), yet slugifying
it again changes it: the 80-character cap cuts the slug right after a
hyphen, and the second pass trims that trailing hyphen. -/
theorem slugify_not_idempotent :
    slugify (slugify slugLongInput) ≠ slugify slugLongInput := by decide

/-- Claim C1, amended.  For every input the slug has at most 80 characters and
contains only alphanumeric characters and hyphens (no whitespace, no other
punctuation); slugify is idempotent on every output that does not end in a
hyphen (a trailing hyphen can only arise from the 80-character truncation,
and only that case breaks idempotence). -/
theorem slugify_spec (s : String) :
    (slugify s).length ≤ 80 ∧
    (∀ c ∈ (slugify s).data, c.isAlphanum = true ∨ c = '-') ∧
    ((slugify s).data.getLast? ≠ some '-' → slugify (slugify s) = slugify s) := by
  refine ⟨?_, ?_, ?_⟩
  · show (slugifyChars s.data).length ≤ 80
    exact slugifyChars_length s.data
  · intro c hc
    have hsc := slugifyChars_all_slugChar s.data c hc
    simp only [slugChar, Bool.or_eq_true, Bool.and_eq_true, decide_eq_true_eq] at hsc
    rcases hsc with ⟨h1, -⟩ | h1
    · exact Or.inl h1
    · exact Or.inr h1
  · intro hLast
    have hfix : slugifyChars (slugifyChars s.data) = slugifyChars s.data :=
      slugifyChars_fixed (slugifyChars_all_slugChar s.data)
        (slugifyChars_noDD s.data) (slugifyChars_head s.data) hLast
        (slugifyChars_length s.data)
    show (⟨slugifyChars (slugifyChars s.data)⟩ : String) = ⟨slugifyChars s.data⟩
    rw [hfix]

/-- Claim C1, witness for the amended theorem at a concrete input. -/
theorem slugify_spec_witness :
    (slugify "Hello, World!").length ≤ 80 ∧
    slugify (slugify "Hello, World!") = slugify "Hello, World!" :=
  ⟨(slugify_spec "Hello, World!").1,
   (slugify_spec "Hello, World!").2.2 (by decide)⟩

/-! ### Claim C2 -/

/-- Claim C2.  Whenever the generated post's slug is already in the ledger loaded
at run start, the orchestrator aborts before the publish step: the Publisher
is never called, no creation request is made, no canonical URL is produced,
and the ledger is unchanged (never rewritten). -/
theorem run_aborts_on_ledger_hit (ledger : List String) (articles : List Article)
    (post : Post) (login : LoginResp) (resp : PostResp)
    (h : post.slug ∈ ledger) :
    run ledger articles (some post) login resp =
      ⟨false, false, false, ledger, none⟩ := by
  unfold run
  split
  · rfl
  · simp only [if_pos h]

/-- Claim C2, witness: a run whose generated slug `"x"` is already in the ledger. -/
theorem run_aborts_on_ledger_hit_witness :
    postX.slug ∈ ["x"] ∧
    run ["x"] [mkArt "ai" "u"] (some postX) LoginResp.connError
      (PostResp.status 201) = ⟨false, false, false, ["x"], none⟩ :=
  ⟨by decide,
   run_aborts_on_ledger_hit ["x"] [mkArt "ai" "u"] postX LoginResp.connError
     (PostResp.status 201) (by decide)⟩

/-! ### Claim C3 -/

/-- Claim C3.  An entry with no published timestamp passes the recency test of
`fetch_from_rss` and appears in the output (contradicting the code's own
comment "skip if no date" and the spec's 24-hour recency window): with a
current time of 1000000 the undated entry is emitted with an empty
published field. -/
theorem fetch_from_rss_keeps_undated_entry :
    rssEntryUndated.published = none ∧
    fetch_from_rss 1000000 5 [rssFeedC3] =
      [⟨"Ai", "Ai news", "u", "F", none, "Ai news", "rss"⟩] :=
  ⟨rfl, by decide⟩

/-! ### Claim C4 -/

/-- Claim C4.  When the login call fails — HTTP 401, a connection error, or a
timeout — `publish_article` returns no URL, makes no creation request and
leaves the post untouched, and the whole run ends with no URL, no creation
request and an unchanged ledger. -/
theorem publish_aborts_on_login_failure (lr : LoginResp) (tok : Option String)
    (resp : PostResp) (article : Post) (ledger : List String)
    (articles : List Article) (gen : Option Post)
    (h : lr = LoginResp.status 401 tok ∨ lr = LoginResp.connError ∨
      lr = LoginResp.timeout) :
    publish_article (getJwtToken lr) resp article = ⟨none, article, false⟩ ∧
    (run ledger articles gen lr resp).url = none ∧
    (run ledger articles gen lr resp).createRequested = false ∧
    (run ledger articles gen lr resp).ledger = ledger := by
  have htok : getJwtToken lr = none := by
    rcases h with h | h | h <;> subst h <;> rfl
  have hpub : ∀ a : Post, publish_article (getJwtToken lr) resp a =
      ⟨none, a, false⟩ := by
    intro a; rw [htok]; rfl
  refine ⟨hpub article, ?_⟩
  unfold run
  split
  · exact ⟨rfl, rfl, rfl⟩
  · cases gen with
    | none => exact ⟨rfl, rfl, rfl⟩
    | some post =>
        by_cases hs : post.slug ∈ ledger
        · simp [hs]
        · simp [hs, hpub post]

/-- Claim C4, witness: a concrete run whose login times out. -/
theorem publish_aborts_on_login_failure_witness :
    (LoginResp.timeout = LoginResp.status 401 none ∨
      LoginResp.timeout = LoginResp.connError ∨
      LoginResp.timeout = LoginResp.timeout) ∧
    publish_article (getJwtToken LoginResp.timeout) (PostResp.status 201) postX
      = ⟨none, postX, false⟩ ∧
    (run [] [mkArt "ai" "u"] (some postX) LoginResp.timeout
      (PostResp.status 201)).ledger = [] :=
  ⟨Or.inr (Or.inr rfl),
   (publish_aborts_on_login_failure LoginResp.timeout none (PostResp.status 201)
     postX [] [mkArt "ai" "u"] (some postX) (Or.inr (Or.inr rfl))).1,
   (publish_aborts_on_login_failure LoginResp.timeout none (PostResp.status 201)
     postX [] [mkArt "ai" "u"] (some postX) (Or.inr (Or.inr rfl))).2.2.2⟩

/-! ### Claim C9 -/

/-- Claim C9.  `submit_to_google` always attempts all three sub-methods in order
(IndexNow, Google ping, Bing ping) regardless of individual outcomes, and
its overall result is success exactly when at least one sub-method
succeeded; an HTTP 403 from IndexNow fails only that sub-method. -/
theorem submit_to_google_spec (rIndexnow rGoogle rBing : HttpResp) :
    (submit_to_google rIndexnow rGoogle rBing).1 =
      [SubMethod.indexnow, SubMethod.googlePing, SubMethod.bingPing] ∧
    (submit_to_google rIndexnow rGoogle rBing).2 =
      (submit_indexnow rIndexnow || ping_google_sitemap rGoogle ||
        ping_bing_sitemap rBing) ∧
    submit_indexnow (HttpResp.status 403) = false := by
  refine ⟨rfl, ?_, rfl⟩
  have hsum : ∀ (a b c : Bool),
      decide (0 < ((if a then 1 else 0) + (if b then 1 else 0) +
        (if c then 1 else 0) : Nat)) = (a || b || c) := by decide
  exact hsum (submit_indexnow rIndexnow) (ping_google_sitemap rGoogle)
    (ping_bing_sitemap rBing)

/-! ### Claim C10 -/

/-- Claim C10.  Once a token is obtained, `publish_article` pops the `_meta` block
from the caller's post and restores it only when the creation call returns
HTTP 201; on every other outcome (401, 409, 400, other statuses, connection
error, timeout) the post is left without its `_meta` block.  The canonical
URL is returned exactly in the 201 case. -/
theorem publish_article_meta_frame (t : String) (resp : PostResp)
    (article : Post) :
    (publish_article (some t) resp article).post =
      (if resp = PostResp.status 201 then article
       else { article with meta := none }) ∧
    (publish_article (some t) resp article).url =
      (if resp = PostResp.status 201
       then some (canonicalFor article.meta article.slug) else none) := by
  by_cases h : resp = PostResp.status 201
  · subst h
    simp only [if_pos rfl]
    constructor
    · show ({ { article with meta := none } with meta := article.meta } :
        Post) = article
      rfl
    · rfl
  · rw [if_neg h, if_neg h]
    unfold publish_article
    rw [if_neg h]
    exact ⟨rfl, rfl⟩

/-! ### Claim C5 -/

theorem addFetched_props :
    ∀ (l : List Article) (seen : List String),
      ∀ s ∈ addFetched seen l, s.url ≠ "" ∧ s.url ∉ seen
  | [], _, s, hs => by cases hs
  | art :: rest, seen, s, hs => by
      unfold addFetched at hs
      split at hs
      · rename_i hcond
        rcases List.mem_cons.mp hs with hh | hh
        · subst hh; exact hcond
        · have := addFetched_props rest (art.url :: seen) s hh
          exact ⟨this.1, fun hm => this.2 (List.mem_cons_of_mem _ hm)⟩
      · exact addFetched_props rest seen s hs

theorem addFetched_nodup :
    ∀ (l : List Article) (seen : List String),
      ((addFetched seen l).map SourceRef.url).Nodup
  | [], _ => List.nodup_nil
  | art :: rest, seen => by
      unfold addFetched
      split
      · rw [List.map_cons, List.nodup_cons]
        refine ⟨fun hmem => ?_, addFetched_nodup rest (art.url :: seen)⟩
        obtain ⟨s, hs, hurl⟩ := List.mem_map.mp hmem
        have := (addFetched_props rest (art.url :: seen) s hs).2
        exact this (hurl ▸ List.mem_cons_self _ _)
      · exact addFetched_nodup rest seen

theorem addFetched_complete :
    ∀ (l : List Article) (seen : List String) (a : Article), a ∈ l →
      a.url ≠ "" → a.url ∉ seen →
      a.url ∈ (addFetched seen l).map SourceRef.url
  | [], _, a, ha, _, _ => by cases ha
  | art :: rest, seen, a, ha, hne, hns => by
      unfold addFetched
      rcases List.mem_cons.mp ha with hh | hh
      · subst hh
        rw [if_pos ⟨hne, hns⟩]
        exact List.mem_cons_self _ _
      · split
        · rename_i hcond
          by_cases heq : a.url = art.url
          · rw [List.map_cons, heq]
            exact List.mem_cons_self _ _
          · have hns2 : a.url ∉ art.url :: seen := by
              intro hm
              rcases List.mem_cons.mp hm with hm | hm
              · exact heq hm
              · exact hns hm
            exact List.mem_cons_of_mem _
              (addFetched_complete rest (art.url :: seen) a hh hne hns2)
        · exact addFetched_complete rest seen a hh hne hns

theorem sourcesListed_split (ms : List SourceRef) (arts : List Article) :
    sourcesListed ms arts =
      ms.filter (fun s => s.url ≠ "") ++
        addFetched (ms.map SourceRef.url) (arts.take 8) := by
  unfold sourcesListed
  rw [List.filter_append]
  congr 1
  apply List.filter_eq_self.mpr
  intro s hs
  have := (addFetched_props (arts.take 8) (ms.map SourceRef.url) s hs).1
  simpa using this

/-- Claim C5, counterexample.  The claim fails in three ways: (i) with nine
fetched articles the ninth's URL `"u9"` is never listed although it is
nonempty and not among the model's URLs, because only the first 8 articles
are scanned; (ii) a URL the model returns twice is listed twice; (iii) a
model pair with an empty URL is not listed at all. -/
theorem sources_counterexample :
    ((sourcesListed [⟨"m", "u"⟩] artsC5).map SourceRef.url =
      ["u", "u1", "u2", "u3", "u4", "u5", "u6", "u7", "u8"] ∧
     (mkArt "t9" "u9") ∈ artsC5 ∧ (mkArt "t9" "u9").url = "u9") ∧
    ¬ ((sourcesListed [⟨"m1", "u"⟩, ⟨"m2", "u"⟩] []).map SourceRef.url).Nodup ∧
    (⟨"m", ""⟩ : SourceRef) ∉ sourcesListed [⟨"m", ""⟩] artsC5 := by
  refine ⟨⟨by decide, by decide, rfl⟩, by decide, by decide⟩

/-- Claim C5, amended.  When the model returned a nonempty source list, the
Sources section lists, in order, every model pair with a nonempty URL
(duplicates among them preserved), followed by the URLs of the first 8
fetched articles that are nonempty and not among the model's URLs; these
appended URLs are pairwise distinct and distinct from every model URL, and
every first-8 fetched article with a nonempty URL not among the model's
URLs does get listed. -/
theorem sources_spec (ms : List SourceRef) (arts : List Article)
    (h : ms ≠ []) :
    sourcesBlock ms arts = some (ms.filter (fun s => s.url ≠ "") ++
      addFetched (ms.map SourceRef.url) (arts.take 8)) ∧
    ((addFetched (ms.map SourceRef.url) (arts.take 8)).map SourceRef.url).Nodup ∧
    (∀ u ∈ (addFetched (ms.map SourceRef.url) (arts.take 8)).map SourceRef.url,
      u ∉ ms.map SourceRef.url) ∧
    (∀ a ∈ arts.take 8, a.url ≠ "" → a.url ∉ ms.map SourceRef.url →
      a.url ∈ (sourcesListed ms arts).map SourceRef.url) := by
  refine ⟨?_, addFetched_nodup _ _, ?_, ?_⟩
  · unfold sourcesBlock
    rw [if_neg (by simpa using h), sourcesListed_split]
  · intro u hu
    obtain ⟨s, hs, hurl⟩ := List.mem_map.mp hu
    exact hurl ▸ (addFetched_props _ _ s hs).2
  · intro a ha hne hns
    rw [sourcesListed_split, List.map_append, List.mem_append]
    exact Or.inr (addFetched_complete _ _ a ha hne hns)

/-- Claim C5, witness for the amended theorem at a concrete input. -/
theorem sources_spec_witness :
    ([⟨"m", "u"⟩] : List SourceRef) ≠ [] ∧
    ((addFetched (([⟨"m", "u"⟩] : List SourceRef).map SourceRef.url)
      (artsC5.take 8)).map SourceRef.url).Nodup :=
  ⟨by decide, (sources_spec [⟨"m", "u"⟩] artsC5 (by decide)).2.1⟩

/-! ### Claim C6 -/

theorem sitemapPostSlugs_map (l : List SlugEntry) :
    sitemapPostSlugs (l.map (fun i => SitemapEntry.post i.slug i.updated)) =
      l.map SlugEntry.slug := by
  induction l with
  | nil => rfl
  | cons a t ih => simp [sitemapPostSlugs, List.filterMap_cons] at ih ⊢; exact ih

theorem sitemapPostSlugs_hom (listing : List SlugEntry) (ns today : String) :
    sitemapPostSlugs (generate_sitemap listing ns today) =
      (injectSlug listing ns today).map SlugEntry.slug := by
  unfold generate_sitemap
  rw [show sitemapPostSlugs (SitemapEntry.home today ::
      (injectSlug listing ns today).map (fun i => SitemapEntry.post i.slug i.updated)) =
      sitemapPostSlugs ((injectSlug listing ns today).map
        (fun i => SitemapEntry.post i.slug i.updated)) from rfl]
  exact sitemapPostSlugs_map _

/-- Claim C6, counterexample.  (i) A backend listing that repeats a slug produces
a sitemap with that slug twice; (ii) when the newly published slug is the
empty string (falsy in Python) it is not injected even though it is absent
from the listing. -/
theorem generate_sitemap_counterexample :
    ¬ (sitemapPostSlugs
        (generate_sitemap [⟨"s", "d"⟩, ⟨"s", "d"⟩] "t" "today")).Nodup ∧
    ("" ∉ ([⟨"s", "d"⟩] : List SlugEntry).map SlugEntry.slug ∧
      sitemapPostSlugs (generate_sitemap [⟨"s", "d"⟩] "" "today") = ["s"]) := by
  exact ⟨by decide, by decide, by decide⟩

/-- Claim C6, amended.  For every backend listing whose slugs are pairwise
distinct and every nonempty newly-published slug: the sitemap has exactly
one home entry, its post slugs are pairwise distinct and are exactly the
fetched slugs plus the new slug, and when the new slug is absent from the
listing it is injected as the first post entry. -/
theorem generate_sitemap_spec (listing : List SlugEntry) (ns today : String)
    (hnodup : (listing.map SlugEntry.slug).Nodup) (hns : ns ≠ "") :
    (generate_sitemap listing ns today).countP isHomeEntry = 1 ∧
    (sitemapPostSlugs (generate_sitemap listing ns today)).Nodup ∧
    (∀ s, s ∈ sitemapPostSlugs (generate_sitemap listing ns today) ↔
      (s = ns ∨ s ∈ listing.map SlugEntry.slug)) ∧
    (ns ∉ listing.map SlugEntry.slug →
      generate_sitemap listing ns today =
        SitemapEntry.home today :: SitemapEntry.post ns today ::
          listing.map (fun i => SitemapEntry.post i.slug i.updated)) := by
  have hmem : listing.any (fun s => s.slug = ns) = true ↔
      ns ∈ listing.map SlugEntry.slug := by
    rw [List.any_eq_true]
    constructor
    · rintro ⟨e, he, hes⟩
      exact List.mem_map.mpr ⟨e, he, by simpa using hes⟩
    · rintro hm
      obtain ⟨e, he, hes⟩ := List.mem_map.mp hm
      exact ⟨e, he, by simpa using hes⟩
  have hcount : ∀ l : List SlugEntry,
      (SitemapEntry.home today ::
        l.map (fun i => SitemapEntry.post i.slug i.updated)).countP isHomeEntry
        = 1 := by
    intro l
    rw [List.countP_cons_of_pos _ _ (by rfl)]
    have : (l.map (fun i => SitemapEntry.post i.slug i.updated)).countP
        isHomeEntry = 0 := by
      apply List.countP_eq_zero.mpr
      intro e he
      obtain ⟨i, -, hi⟩ := List.mem_map.mp he
      subst hi; simp [isHomeEntry]
    omega
  refine ⟨hcount _, ?_, ?_, ?_⟩
  · rw [sitemapPostSlugs_hom]
    unfold injectSlug
    split
    · rename_i hcond
      rw [List.map_cons, List.nodup_cons]
      exact ⟨fun hm => hcond.2 (hmem.mpr hm), hnodup⟩
    · exact hnodup
  · intro s
    rw [sitemapPostSlugs_hom]
    unfold injectSlug
    split
    · rename_i hcond
      rw [List.map_cons]
      simp [List.mem_cons]
    · rename_i hcond
      rw [not_and_or] at hcond
      rcases hcond with hcond | hcond
      · exact absurd hns (by simpa using hcond)
      · have hin : ns ∈ listing.map SlugEntry.slug := by
          rw [not_not] at hcond
          exact hmem.mp (by simpa using hcond)
        constructor
        · intro hm; exact Or.inr hm
        · rintro (hm | hm)
          · subst hm; exact hin
          · exact hm
  · intro habsent
    unfold generate_sitemap injectSlug
    rw [if_pos ⟨hns, fun hc => habsent (hmem.mp hc)⟩, List.map_cons]

/-- Claim C6, witness for the amended theorem at a concrete input. -/
theorem generate_sitemap_spec_witness :
    (([⟨"s", "d"⟩] : List SlugEntry).map SlugEntry.slug).Nodup ∧
    ("t" : String) ≠ "" ∧
    (sitemapPostSlugs (generate_sitemap [⟨"s", "d"⟩] "t" "today")).Nodup :=
  ⟨by decide, by decide,
   (generate_sitemap_spec [⟨"s", "d"⟩] "t" "today" (by decide) (by decide)).2.1⟩

/-! ### Claim C7 -/

theorem dedupGo_eq_firstSeen (l : List Article) : ∀ seen : List String,
    dedupGo seen l = firstSeen (l.filter (fun a => normKey a ∉ seen)) := by
  induction l with
  | nil => intro seen; simp [dedupGo, firstSeen]
  | cons a rest ih =>
      intro seen
      by_cases hs : normKey a ∈ seen
      · simp only [dedupGo]
        rw [if_pos hs, List.filter_cons_of_neg (by simpa using hs)]
        exact ih seen
      · simp only [dedupGo]
        rw [if_neg hs, List.filter_cons_of_pos (by simpa using hs), firstSeen,
          ih (normKey a :: seen), List.filter_filter]
        congr 1
        apply congrArg firstSeen
        apply List.filter_congr
        intro b _
        by_cases h1 : normKey b = normKey a <;> by_cases h2 : normKey b ∈ seen <;>
          simp [h1, h2]

theorem dedupGo_sublist : ∀ (l : List Article) (seen : List String),
    List.Sublist (dedupGo seen l) l
  | [], _ => List.Sublist.refl []
  | a :: rest, seen => by
      simp only [dedupGo]
      split
      · exact (dedupGo_sublist rest seen).cons a
      · exact (dedupGo_sublist rest (normKey a :: seen)).cons₂ a

theorem dedupGo_keys : ∀ (l : List Article) (seen : List String),
    ((dedupGo seen l).map normKey).Nodup ∧
    ∀ k ∈ (dedupGo seen l).map normKey, k ∉ seen
  | [], _ => ⟨List.nodup_nil, by intro k hk; cases hk⟩
  | a :: rest, seen => by
      simp only [dedupGo]
      split
      · rename_i hs
        refine ⟨(dedupGo_keys rest seen).1, fun k hk => (dedupGo_keys rest seen).2 k hk⟩
      · rename_i hs
        obtain ⟨ihn, ihd⟩ := dedupGo_keys rest (normKey a :: seen)
        rw [List.map_cons, List.nodup_cons]
        refine ⟨⟨fun hmem => ?_, ihn⟩, fun k hk => ?_⟩
        · exact ihd (normKey a) hmem (List.mem_cons_self _ _)
        · rcases List.mem_cons.mp hk with hk | hk
          · subst hk; exact hs
          · exact fun hkseen => ihd k hk (List.mem_cons_of_mem _ hkseen)

/-- Claim C7.  `deduplicate` keeps exactly the first-seen record per normalized
key: it equals the specification function `firstSeen` (keep each record,
drop every later record with the same key), it is a sublist of its input
(relative order preserved), and no two surviving records share a key. -/
theorem deduplicate_spec (l : List Article) :
    deduplicate l = firstSeen l ∧
    List.Sublist (deduplicate l) l ∧
    ((deduplicate l).map normKey).Nodup := by
  refine ⟨?_, dedupGo_sublist l [], (dedupGo_keys l []).1⟩
  unfold deduplicate
  rw [dedupGo_eq_firstSeen]
  congr 1
  apply List.filter_eq_self.mpr
  intro a _
  simp

/-! ### Claim C8 -/

theorem string_le_empty {s : String} (h : s ≤ "") : s = "" := by
  rw [← String.toList_inj]
  rw [String.le_iff_toList_le, String.toList_empty] at h
  cases hd : s.toList with
  | nil => rw [String.toList_empty]
  | cons c cs =>
      rw [hd] at h
      rcases lt_or_eq_of_le h with hlt | heq
      · exact absurd hlt (List.Lex.not_nil_right _ _)
      · exact absurd heq (List.cons_ne_nil c cs)

/-- Claim C8.  The list `fetch_news` returns has at most 20 records, is sorted by
the published timestamp string in descending order, and records with an
empty timestamp sort as earliest (they can only be followed by further
empty-timestamp records). -/
theorem fetch_news_spec (napi rss : List Article) :
    (fetch_news napi rss).length ≤ 20 ∧
    (fetch_news napi rss).Pairwise (fun a b => b.published ≤ a.published) ∧
    (fetch_news napi rss).Pairwise
      (fun a b => a.published = "" → b.published = "") := by
  have htrans : ∀ a b c : Article,
      decide (b.published ≤ a.published) →
      decide (c.published ≤ b.published) →
      decide (c.published ≤ a.published) := by
    intro a b c h1 h2
    simp only [decide_eq_true_eq] at h1 h2 ⊢
    exact le_trans h2 h1
  have htotal : ∀ a b : Article,
      (decide (b.published ≤ a.published) ||
        decide (a.published ≤ b.published)) = true := by
    intro a b
    rcases le_total b.published a.published with h | h <;> simp [h]
  have hsorted := List.sorted_mergeSort htrans htotal
    (filter_relevant (deduplicate (napi ++ rss)))
  have hpair : (fetch_news napi rss).Pairwise
      (fun a b => decide (b.published ≤ a.published) = true) := by
    unfold fetch_news
    exact List.Pairwise.sublist (List.take_sublist 20 _) hsorted
  have hpair2 : (fetch_news napi rss).Pairwise
      (fun a b => b.published ≤ a.published) :=
    hpair.imp (fun h => of_decide_eq_true h)
  refine ⟨?_, hpair2, ?_⟩
  · show ((_ : List Article).take 20).length ≤ 20
    rw [List.length_take]
    exact Nat.min_le_left _ _
  · exact hpair2.imp (fun h ha => string_le_empty (ha ▸ h))

end NewsBot
